import Mathlib

/-!
Shallow embedding of the THz-TDS Toolkit core (src/core/processing.py,
src/core/data_manager.py) and of the spectrum-cache update of
src/pages/frequency_page.py, together with theorems settling the frozen
claims about the natural-language specification.

Modelling conventions:
* numpy arrays are Lean lists; complex arrays are `List ℂ`, float arrays
  `List ℝ`.  The data manager only subtracts and compares time values, so
  its floats are modelled as rationals (`ℚ`), which keeps that part of the
  model fully executable; every Python float is a rational number.
* a Python function that can raise an exception is modelled as returning
  `Option`: `none` is the exception escaping to the caller.
* `float("nan")` for the peak time is modelled as `none : Option ℝ`.
-/

open Complex

namespace THzTDS

/-! ### scipy.signal.get_window (external collaborator)

`get_window` is called with `fftbins=True` (the scipy default), i.e. the
periodic variants of the windows.  The window families offered by the
application's pages are "None" (handled inside `apply_window`), "hann",
"hamming", "blackman" and "tukey"; they are embedded from scipy's documented
formulas (periodic window of length n = symmetric window of length n+1 with
the last sample dropped; windows of length ≤ 1 are all-ones).  Any other
window name, or a wrong argument count, is the error case (`none`),
modelling the exception scipy raises. -/

noncomputable def hann_periodic (n : ℕ) : List ℝ :=
  if n ≤ 1 then List.replicate n 1
  else (List.range n).map fun k : ℕ => 1/2 - 1/2 * Real.cos (2 * Real.pi * (k : ℝ) / (n : ℝ))

noncomputable def hamming_periodic (n : ℕ) : List ℝ :=
  if n ≤ 1 then List.replicate n 1
  else (List.range n).map fun k : ℕ => 0.54 - 0.46 * Real.cos (2 * Real.pi * (k : ℝ) / (n : ℝ))

noncomputable def blackman_periodic (n : ℕ) : List ℝ :=
  if n ≤ 1 then List.replicate n 1
  else (List.range n).map fun k : ℕ =>
    0.42 - 0.5 * Real.cos (2 * Real.pi * (k : ℝ) / (n : ℝ))
      + 0.08 * Real.cos (4 * Real.pi * (k : ℝ) / (n : ℝ))

/-- Symmetric Tukey window of length `M` (scipy `windows.tukey(M, alpha, sym=True)`). -/
noncomputable def tukey_sym (alpha : ℝ) (M : ℕ) : List ℝ :=
  if M ≤ 1 then List.replicate M 1
  else if alpha ≤ 0 then List.replicate M 1
  else if 1 ≤ alpha then
    (List.range M).map fun k : ℕ => 1/2 - 1/2 * Real.cos (2 * Real.pi * (k : ℝ) / ((M : ℝ) - 1))
  else
    let width : ℤ := Int.floor (alpha * ((M : ℝ) - 1) / 2)
    (List.range M).map fun k : ℕ =>
      if (k : ℤ) ≤ width then
        1/2 * (1 + Real.cos (Real.pi * (-1 + 2 * (k : ℝ) / (alpha * ((M : ℝ) - 1)))))
      else if (k : ℤ) < (M : ℤ) - width - 1 then 1
      else
        1/2 * (1 + Real.cos (Real.pi * (-2/alpha + 1 + 2 * (k : ℝ) / (alpha * ((M : ℝ) - 1)))))

noncomputable def tukey_periodic (alpha : ℝ) (n : ℕ) : List ℝ :=
  if n ≤ 1 then List.replicate n 1
  else if alpha ≤ 0 then List.replicate n 1
  else if 1 ≤ alpha then hann_periodic n
  else (tukey_sym alpha (n + 1)).dropLast

noncomputable def get_window (windowType : String) (windowArgs : List ℝ) (n : ℕ) :
    Option (List ℝ) :=
  if windowType = "hann" then
    match windowArgs with
    | [] => some (hann_periodic n)
    | _ => none
  else if windowType = "hamming" then
    match windowArgs with
    | [] => some (hamming_periodic n)
    | _ => none
  else if windowType = "blackman" then
    match windowArgs with
    | [] => some (blackman_periodic n)
    | _ => none
  else if windowType = "tukey" then
    match windowArgs with
    | [] => some (tukey_periodic 0.5 n)
    | [alpha] => some (tukey_periodic alpha n)
    | _ => none
  else none

/-! ### apply_window (src/core/processing.py lines 7-52) -/

/-- The product `x[a:b] * w` assigned into the slice `[a:b)`:
`numpy` elementwise product of the complex slice with the real window. -/
noncomputable def slice_prod (x : List ℂ) (w : List ℝ) (a b : ℕ) : List ℂ :=
  List.zipWith (fun (xi : ℂ) (wi : ℝ) => xi * (wi : ℂ)) ((x.drop a).take (b - a)) w

/-- `start_idx = max(0, int(start_idx))`. -/
def aw_s0 (startIdx : ℤ) : ℤ := max 0 startIdx

/-- `stop_idx = min(len(x), int(stop_idx))` (default `len(x)`), then forced
`≥ start_idx`. -/
def aw_s1 (len : ℕ) (startIdx : ℤ) (stopIdx : Option ℤ) : ℤ :=
  if min (len : ℤ) (stopIdx.getD (len : ℤ)) < aw_s0 startIdx then aw_s0 startIdx
  else min (len : ℤ) (stopIdx.getD (len : ℤ))

/-- `window_len = stop_idx - start_idx`. -/
def aw_len (len : ℕ) (startIdx : ℤ) (stopIdx : Option ℤ) : ℕ :=
  (aw_s1 len startIdx stopIdx - aw_s0 startIdx).toNat

/-- The window picked by `apply_window`: all-ones for `"None"`, otherwise
`scipy.signal.get_window`. -/
noncomputable def aw_window (windowType : String) (windowArgs : List ℝ) (n : ℕ) :
    Option (List ℝ) :=
  if windowType = "None" then some (List.replicate n 1)
  else get_window windowType windowArgs n

/-- `apply_window(t, x, window_type, window_args, start_idx, stop_idx,
zero_outside_window)`.  Returns `(xw, w, start_idx, stop_idx)`; `none` models
the exception raised by `scipy.signal.get_window` on an unknown window name
or a wrong argument count.  The slice assignments
`xw[start_idx:stop_idx] = x[start_idx:stop_idx] * w` (on `np.zeros_like(x)`)
and `xw[start_idx:stop_idx] *= w` (on `x.copy()`) are written as
prefix ++ slice ++ suffix of the result array. -/
noncomputable def apply_window (t : List ℝ) (x : List ℂ) (windowType : String)
    (windowArgs : List ℝ) (startIdx : ℤ) (stopIdx : Option ℤ)
    (zeroOutsideWindow : Bool) : Option (List ℂ × List ℝ × ℤ × ℤ) :=
  let _ := t
  let s0 : ℤ := aw_s0 startIdx
  let s1 : ℤ := aw_s1 x.length startIdx stopIdx
  if aw_len x.length startIdx stopIdx = 0 then some (x, [], s0, s1)
  else
    match aw_window windowType windowArgs (aw_len x.length startIdx stopIdx) with
    | none => none
    | some w =>
      let a : ℕ := s0.toNat
      let b : ℕ := s1.toNat
      let xw : List ℂ :=
        if zeroOutsideWindow then
          List.replicate a 0 ++ slice_prod x w a b ++ List.replicate (x.length - b) 0
        else
          x.take a ++ slice_prod x w a b ++ x.drop b
      some (xw, w, s0, s1)

/-! ### compute_fft (src/core/processing.py lines 54-97) -/

/-- Index of the first occurrence of the maximum of a list of reals
(the semantics of `np.argmax`; `np.argmax` of an empty array raises, callers
below guard the empty case). -/
noncomputable def np_argmax : List ℝ → ℕ
  | [] => 0
  | [_] => 0
  | a :: b :: rest =>
    let j := np_argmax (b :: rest)
    if a < (b :: rest).getD j 0 then j + 1 else 0

/-- `np.argmax(np.abs(xw))`. -/
noncomputable def argmax_abs (xw : List ℂ) : ℕ := np_argmax (xw.map Complex.abs)

/-- Discrete Fourier transform with numpy's sign convention:
`X[k] = Σ_n x[n]·exp(-2πi·k·n/N)`. -/
noncomputable def np_fft (x : List ℂ) : List ℂ :=
  (List.range x.length).map fun k : ℕ =>
    ∑ n ∈ Finset.range x.length,
      x.getD n 0 * Complex.exp (-(2 * Real.pi * Complex.I * (k : ℂ) * (n : ℂ)) / (x.length : ℂ))

/-- `np.fft.fftfreq(N, d=dt)`: bin `k` holds `k/(N·dt)` for `k ≤ (N-1)//2`
and `(k-N)/(N·dt)` above. -/
noncomputable def np_fftfreq (N : ℕ) (dt : ℝ) : List ℝ :=
  (List.range N).map fun k : ℕ =>
    (if k ≤ (N - 1) / 2 then (k : ℝ) else (k : ℝ) - (N : ℝ)) / ((N : ℝ) * dt)

structure WindowMeta where
  type : String
  args : List ℝ
  startIdx : ℤ
  stopIdx : Option ℤ

structure FftResult where
  Freqs : List ℝ
  FFT : List ℂ
  /-- `"t_peak_ps"`.  The field mirrors the code's
  `float(t[...]) if len(xw) else float("nan")` conditional; since
  `np.fft.fft` raises on an empty array two lines earlier, the `nan` arm is
  dead code and a returned result always carries `some`. -/
  t_peak_ps : Option ℝ
  window : WindowMeta

/-- `compute_fft(t, x, window_type, window_args, start_idx, stop_idx)`.
`none` models an escaping exception: a `get_window` failure, the
`IndexError` of `dt = t[1] - t[0]` when `len(t) < 2`, the `ValueError`
raised by `np.fft.fft(xw)` when the windowed array is empty (0 FFT data
points — this happens before `t_peak_ps` is computed, so the code's
`float("nan")` branch is dead and `compute_fft` never returns NaN), or the
`IndexError` of `t[np.argmax(np.abs(xw))]` when that index falls outside
`t`.  After `apply_window` returns, `stop_idx` is the clamped integer and
is never `None`, so the metadata stores `some` of it. -/
noncomputable def compute_fft (t : List ℝ) (x : List ℂ) (windowType : String)
    (windowArgs : List ℝ) (startIdx : ℤ) (stopIdx : Option ℤ) : Option FftResult :=
  match apply_window t x windowType windowArgs startIdx stopIdx true with
  | none => none
  | some (xw, _w, a, b) =>
    if t.length < 2 then none
    else if xw.length = 0 then none
    else
      let dt : ℝ := t.getD 1 0 - t.getD 0 0
      let half : ℕ := xw.length / 2
      let meta : WindowMeta := ⟨windowType, windowArgs, a, some b⟩
      match t.get? (argmax_abs xw) with
      | none => none
      | some tv =>
        some ⟨(np_fftfreq xw.length dt).take half, (np_fft xw).take half, some tv, meta⟩

/-! ### normalize_fft, compute_mag, compute_phase (src/core/processing.py lines 99-148) -/

structure FftDict where
  Freqs : List ℝ
  FFT : List ℂ

def FftResult.toDict (r : FftResult) : FftDict := ⟨r.Freqs, r.FFT⟩

/-- `normalize_fft(fft, ref_fft)`: replace reference bins of magnitude
below `1e-12` by `1e-12 + 0i`, then divide elementwise; the frequency axis
of the first argument is kept. -/
noncomputable def normalize_fft (fft refFft : FftDict) : FftDict :=
  let XrefSafe : List ℂ :=
    refFft.FFT.map fun z => if Complex.abs z < 1e-12 then ((1e-12 : ℝ) : ℂ) else z
  ⟨fft.Freqs, List.zipWith (· / ·) fft.FFT XrefSafe⟩

noncomputable def compute_phase (fftComplex : List ℂ) : List ℝ :=
  fftComplex.map Complex.arg

/-! ### np.unwrap and unwrap_phase (src/core/processing.py lines 150-162) -/

/-- `np.mod a m` for `m > 0`: the representative of `a` in `[0, m)`. -/
noncomputable def np_mod (a m : ℝ) : ℝ := a - m * Int.floor (a / m)

/-- One pass of `np.unwrap` (default `discont = π`, `period = 2π`):
`prev` is the previous *input* sample, `corr` the accumulated correction. -/
noncomputable def np_unwrap_aux (prev corr : ℝ) : List ℝ → List ℝ
  | [] => []
  | q :: rest =>
    let dd := q - prev
    let ddmod0 := np_mod (dd + Real.pi) (2 * Real.pi) - Real.pi
    let ddmod := if ddmod0 = -Real.pi ∧ 0 < dd then Real.pi else ddmod0
    let phc := if |dd| < Real.pi then 0 else ddmod - dd
    let corr' := corr + phc
    (q + corr') :: np_unwrap_aux q corr' rest

noncomputable def np_unwrap : List ℝ → List ℝ
  | [] => []
  | p0 :: rest => p0 :: np_unwrap_aux p0 0 rest

noncomputable def unwrap_phase (phaseWrapped : List ℝ) : List ℝ :=
  np_unwrap phaseWrapped

/-! ### unwrap_phase_informed (src/core/processing.py lines 164-203) -/

/-- Degree-1 least-squares fit `y ≈ A·x + B`, the closed form of
`np.polyfit(x, y, 1)` for a non-degenerate abscissa. -/
noncomputable def polyfit1 (xs ys : List ℝ) : ℝ × ℝ :=
  let n : ℝ := xs.length
  let sx := xs.sum
  let sy := ys.sum
  let sxx := (xs.map fun v => v * v).sum
  let sxy := (List.zipWith (· * ·) xs ys).sum
  let A := (n * sxy - sx * sy) / (n * sxx - sx * sx)
  (A, (sy - A * sx) / n)

/-- `np.rint`: round half to even. -/
noncomputable def np_rint (x : ℝ) : ℤ :=
  if Int.fract x = 1/2 then (if 2 ∣ Int.floor x then Int.floor x else Int.floor x + 1)
  else round x

/-- `np.nanmax` of a NaN-free nonempty array. -/
noncomputable def np_max (l : List ℝ) : ℝ := l.foldl max (l.headD 0)

/-- `arr[mask]` for a boolean mask. -/
def mask_select (l : List ℝ) (m : List Bool) : List ℝ :=
  (List.zip l m).filterMap fun p => if p.2 then some p.1 else none

structure InformedResult where
  /-- `"Unwrapped Phase"`. -/
  unwrappedPhase : List ℝ
  /-- `"Reduced Unwrapped Phase"`. -/
  reducedUnwrappedPhase : List ℝ
  method : String
  t0_sam_ps : ℝ
  t0_ref_ps : ℝ
  fit_intercept_B : ℝ

/-- Step (3) of `unwrap_phase_informed`:
`phi0_diff = 2π * freqs_thz * (t0_sam_ps - t0_ref_ps)`. -/
noncomputable def phi0_diff_of (freqsThz : List ℝ) (t0SamPs t0RefPs : ℝ) : List ℝ :=
  freqsThz.map fun f => 2 * Real.pi * f * (t0SamPs - t0RefPs)

/-- `phi_red = np.angle(T_complex * np.exp(-1j*phi0_diff))`. -/
noncomputable def phi_red_of (Tcomplex : List ℂ) (phi0Diff : List ℝ) : List ℝ :=
  List.zipWith (fun (z : ℂ) (phi : ℝ) => (z * Complex.exp (-(phi : ℂ) * Complex.I)).arg)
    Tcomplex phi0Diff

/-- Default fit mask `(freqs_thz > 0) & (mag > mag_threshold * np.nanmax(mag))`
where `mag = np.abs(T_complex)`. -/
noncomputable def default_fit_mask (freqsThz : List ℝ) (Tcomplex : List ℂ)
    (magThreshold : ℝ) : List Bool :=
  let mag := Tcomplex.map Complex.abs
  let magMax := np_max mag
  List.zipWith (fun f m =>
    (if 0 < f then true else false) && (if magThreshold * magMax < m then true else false))
    freqsThz mag

/-- `unwrap_phase_informed(freqs_thz, T_complex, t0_sam_ps, t0_ref_ps,
fit_mask, mag_threshold)`; the fit intercept `B` stays `0.0` unless the mask
selects strictly more than 5 points. -/
noncomputable def unwrap_phase_informed (freqsThz : List ℝ) (Tcomplex : List ℂ)
    (t0SamPs t0RefPs : ℝ) (fitMask : Option (List Bool)) (magThreshold : ℝ) :
    InformedResult :=
  let phi0Diff := phi0_diff_of freqsThz t0SamPs t0RefPs
  let phiRed := phi_red_of Tcomplex phi0Diff
  let dphi0Star := np_unwrap phiRed
  let w := freqsThz.map fun f => 2 * Real.pi * f
  let mask := match fitMask with
    | some m => m
    | none => default_fit_mask freqsThz Tcomplex magThreshold
  let B : ℝ :=
    if 5 < mask.count true then (polyfit1 (mask_select w mask) (mask_select dphi0Star mask)).2
    else 0
  let dphi0 := dphi0Star.map fun v => v - 2 * Real.pi * (np_rint (B / (2 * Real.pi)) : ℝ)
  let dphiFull := List.zipWith (· + ·) dphi0 phi0Diff
  { unwrappedPhase := dphiFull
    reducedUnwrappedPhase := dphi0
    method := "Informed"
    t0_sam_ps := t0SamPs
    t0_ref_ps := t0RefPs
    fit_intercept_B := B }

/-! ### DataManager (src/core/data_manager.py)

Time values are modelled as rationals (every Python float is one); the data
manager only measures lengths and compares `|t_ref[i] - t_new[i]|` against
the absolute tolerance `1e-12`, so this part of the model is executable.
The external loader `load_data` (src/core/file_io.py) is passed in as a
`parse` function; `parse p = none` models the exception it may raise. -/

/-- The columns of the dataframe produced by `load_data` that the core
reads: `time`, and the signal as `real`/`imag` pairs (`complex` is derived
from them and is not read by the data manager). -/
structure Df where
  time : List ℚ
  point : List (ℚ × ℚ)
  deriving DecidableEq

structure DMDataset where
  name : String
  path : String
  df : Df
  /-- Keys of the per-dataset `results` cache; `load_files` creates it empty
  (its values are only ever written by the UI pages, modelled separately). -/
  resultsKeys : List String
  deriving DecidableEq

structure DataManager where
  datasets : List DMDataset
  referencePath : Option String
  deriving DecidableEq

def DataManager.empty : DataManager := ⟨[], none⟩

def DataManager.set_reference (dm : DataManager) (path : Option String) : DataManager :=
  { dm with referencePath := path }

/-- `get_reference`; Python's `if not self.reference_path` treats both
`None` and the empty string as "no reference". -/
def DataManager.get_reference (dm : DataManager) : Option DMDataset :=
  match dm.referencePath with
  | none => none
  | some p => if p = "" then none else dm.datasets.find? fun ds => ds.path = p

def DataManager.get_all (dm : DataManager) : List DMDataset := dm.datasets

def DataManager.clear (_dm : DataManager) : DataManager := ⟨[], none⟩

/-- `os.path.splitext(os.path.basename(path))[0]`: drop the extension
after the last dot, except when every character before that dot is itself a
dot (so `".bashrc"` keeps its name, following `posixpath.splitext`). -/
def path_stem (path : String) : String :=
  let base := (path.splitOn "/").getLastD path
  let cs := base.toList
  let extRev := cs.reverse.takeWhile fun c => c ≠ '.'
  if extRev.length = cs.length then base
  else
    let stemLen := cs.length - extRev.length - 1
    if (cs.take stemLen).all fun c => c = '.' then base
    else String.mk (cs.take stemLen)

def mkDMDataset (path : String) (df : Df) : DMDataset :=
  ⟨path_stem path, path, df, []⟩

def mismatchReason : String := "Time axis mismatch (does not match first dataset)"

/-- `DataManager._time_axis_matches_reference(df_new)` with `atol = 1e-12`:
vacuously true on an empty store, otherwise equal length and elementwise
`|t_ref - t_new| ≤ atol` (`np.allclose` with `rtol=0`). -/
def time_axis_matches_reference (datasets : List DMDataset) (dfNew : Df) : Bool :=
  match datasets with
  | [] => true
  | ds0 :: _ =>
    if ds0.df.time.length ≠ dfNew.time.length then false
    else (List.zip ds0.df.time dfNew.time).all fun p => |p.1 - p.2| ≤ 1e-12

/-- `DataManager.load_files(file_paths)`: returns the updated manager and
the skip list.  A parse failure is caught and only printed, producing no
skip entry; an axis mismatch produces a `(path, reason)` entry and the
candidate is not appended. -/
def load_files (parse : String → Option Df) (dm : DataManager) :
    List String → DataManager × List (String × String)
  | [] => (dm, [])
  | path :: rest =>
    match parse path with
    | none => load_files parse dm rest
    | some df =>
      if time_axis_matches_reference dm.datasets df then
        load_files parse { dm with datasets := dm.datasets ++ [mkDMDataset path df] } rest
      else
        let r := load_files parse dm rest
        (r.1, (path, mismatchReason) :: r.2)

/-! ### FrequencyPage.on_compute_fft (src/pages/frequency_page.py lines 317-373)

Only the spectrum-cache update is modelled: the Tk widgets and the
start/stop-time parsing are UI plumbing, so the already-parsed window
parameters are inputs.  The per-trace `results` dict holds exactly the keys
this page reads and writes: `"fft"`, `"phase"`, `"fft_normalized"`. -/

structure Results where
  fft : Option FftResult
  phase : Option (List ℝ)
  fft_normalized : Option FftDict

structure FPDataset where
  path : String
  time : List ℝ
  signal : List ℂ
  results : Results

/-- Python-loop traversal that propagates an escaping exception (`none`). -/
def mapOption (f : α → Option β) : List α → Option (List β)
  | [] => some []
  | a :: l =>
    match f a, mapOption f l with
    | some b, some l' => some (b :: l')
    | _, _ => none

/-- `FrequencyPage.on_compute_fft`: for every dataset recompute and store
`results["fft"]`, pop `results["phase"]` and `results["fft_normalized"]`;
then, if a reference resolves and has an `"fft"` entry, store
`results["fft_normalized"] = normalize_fft(results["fft"], ref_fft)` for
every dataset.  `none` models an exception escaping from `compute_fft` or a
`KeyError` on the `results["fft"]` lookup. -/
noncomputable def on_compute_fft (datasets : List FPDataset)
    (referencePath : Option String) (windowType : String) (windowArgs : List ℝ)
    (startIdx : ℤ) (stopIdx : Option ℤ) : Option (List FPDataset) :=
  match mapOption (fun ds =>
      (compute_fft ds.time ds.signal windowType windowArgs startIdx stopIdx).map fun spec =>
        { ds with results := ⟨some spec, none, none⟩ }) datasets with
  | none => none
  | some updated =>
    match referencePath.bind fun rp =>
        if rp = "" then none else updated.find? fun ds => ds.path = rp with
    | none => some updated
    | some refDs =>
      match refDs.results.fft with
      | none => some updated
      | some refFft =>
        mapOption (fun ds =>
          ds.results.fft.map fun specD =>
            { ds with results :=
                { ds.results with fft_normalized := some (normalize_fft specD.toDict refFft.toDict) } })
          updated

/-! ### Heap-level model of apply_window, for the frame claim

To state that `apply_window` never mutates its argument array, the numpy
arrays are given an explicit store: a heap of arrays addressed by handles.
`x.copy()` and `np.zeros_like(x)` allocate; the slice assignments write to
the freshly allocated array only.  The arithmetic mirrors `apply_window`
above. -/

abbrev Heap := List (List ℂ)

def Heap.read (st : Heap) (h : ℕ) : Option (List ℂ) := st.get? h

def Heap.alloc (st : Heap) (v : List ℂ) : Heap × ℕ := (st ++ [v], st.length)

def Heap.write (st : Heap) (h : ℕ) (v : List ℂ) : Heap := st.set h v

noncomputable def apply_window_heap (st : Heap) (xh : ℕ) (windowType : String)
    (windowArgs : List ℝ) (startIdx : ℤ) (stopIdx : Option ℤ)
    (zeroOutsideWindow : Bool) : Option (Heap × ℕ × List ℝ × ℤ × ℤ) :=
  match st.read xh with
  | none => none
  | some x =>
    let s0 : ℤ := aw_s0 startIdx
    let s1 : ℤ := aw_s1 x.length startIdx stopIdx
    if aw_len x.length startIdx stopIdx = 0 then
      let r := st.alloc x
      some (r.1, r.2, [], s0, s1)
    else
      match aw_window windowType windowArgs (aw_len x.length startIdx stopIdx) with
      | none => none
      | some w =>
        let a : ℕ := s0.toNat
        let b : ℕ := s1.toNat
        if zeroOutsideWindow then
          let r := st.alloc (List.replicate x.length 0)
          let st2 := r.1.write r.2
            (List.replicate a 0 ++ slice_prod x w a b ++ List.replicate (x.length - b) 0)
          some (st2, r.2, w, s0, s1)
        else
          let r := st.alloc x
          let st2 := r.1.write r.2 (x.take a ++ slice_prod x w a b ++ x.drop b)
          some (st2, r.2, w, s0, s1)

/-! ### Scenario inputs of the informed-unwrap claim -/

/-- `freqs_THz = [0, 1, 2, 3, 4, 5]`. -/
noncomputable def c1Freqs : List ℝ := [0, 1, 2, 3, 4, 5]

/-- `T_complex = exp(-i·2π·f·2.0)` at each bin: a pure delay of `2.0` ps. -/
noncomputable def c1T : List ℂ :=
  c1Freqs.map fun f => Complex.exp (-Complex.I * ((2 * Real.pi * f * 2 : ℝ) : ℂ))

/-- Stated from the SPEC's words, for comparison with the code: the
`peak_time_ps` the spec describes, "the time-axis value at the index of
maximum `|real part|` of the windowed signal (`NaN` if the windowed signal
is empty)". -/
noncomputable def peak_time_spec (t : List ℝ) (xw : List ℂ) : Option ℝ :=
  if xw.length = 0 then none else t.get? (np_argmax (xw.map fun z => |z.re|))

end THzTDS

/-! ## Theorems -/

namespace THzTDS

/-! ### Helper lemmas -/

theorem aw_s0_nonneg (startIdx : ℤ) : 0 ≤ aw_s0 startIdx := le_max_left 0 startIdx

theorem aw_s0_le_s1 (len : ℕ) (startIdx : ℤ) (stopIdx : Option ℤ) :
    aw_s0 startIdx ≤ aw_s1 len startIdx stopIdx := by
  unfold aw_s1
  split <;> omega

theorem aw_s1_le_len {len : ℕ} {startIdx : ℤ} {stopIdx : Option ℤ}
    (h : aw_s0 startIdx < aw_s1 len startIdx stopIdx) :
    aw_s1 len startIdx stopIdx ≤ (len : ℤ) := by
  unfold aw_s1 at h ⊢
  split at h
  · omega
  · split
    · omega
    · exact min_le_left _ _

theorem hann_periodic_length (n : ℕ) : (hann_periodic n).length = n := by
  unfold hann_periodic; split <;> simp

theorem hamming_periodic_length (n : ℕ) : (hamming_periodic n).length = n := by
  unfold hamming_periodic; split <;> simp

theorem blackman_periodic_length (n : ℕ) : (blackman_periodic n).length = n := by
  unfold blackman_periodic; split <;> simp

theorem tukey_sym_length (alpha : ℝ) (M : ℕ) : (tukey_sym alpha M).length = M := by
  unfold tukey_sym; split_ifs <;> simp

theorem tukey_periodic_length (alpha : ℝ) (n : ℕ) : (tukey_periodic alpha n).length = n := by
  unfold tukey_periodic
  split_ifs <;> simp [hann_periodic_length, tukey_sym_length]

theorem get_window_length {wt : String} {wa : List ℝ} {n : ℕ} {w : List ℝ}
    (h : get_window wt wa n = some w) : w.length = n := by
  unfold get_window at h
  split_ifs at h
  · cases wa with
    | nil =>
      simp only [Option.some.injEq] at h
      rw [← h]; exact hann_periodic_length n
    | cons a l => simp at h
  · cases wa with
    | nil =>
      simp only [Option.some.injEq] at h
      rw [← h]; exact hamming_periodic_length n
    | cons a l => simp at h
  · cases wa with
    | nil =>
      simp only [Option.some.injEq] at h
      rw [← h]; exact blackman_periodic_length n
    | cons a l => simp at h
  · cases wa with
    | nil =>
      simp only [Option.some.injEq] at h
      rw [← h]; exact tukey_periodic_length 0.5 n
    | cons alpha l =>
      cases l with
      | nil =>
        simp only [Option.some.injEq] at h
        rw [← h]; exact tukey_periodic_length alpha n
      | cons b l2 => simp at h

theorem slice_prod_length {x : List ℂ} {w : List ℝ} {a b : ℕ}
    (hab : a ≤ b) (hbl : b ≤ x.length) (hw : w.length = b - a) :
    (slice_prod x w a b).length = b - a := by
  simp only [slice_prod, List.length_zipWith, List.length_take, List.length_drop, hw]
  omega

theorem aw_window_length {wt : String} {wa : List ℝ} {n : ℕ} {w : List ℝ}
    (h : aw_window wt wa n = some w) : w.length = n := by
  unfold aw_window at h
  split at h
  · simp only [Option.some.injEq] at h
    rw [← h]; simp
  · exact get_window_length h

/-- Inversion of `apply_window`: the clamped indices, and the two result
shapes (empty region vs. built window). -/
theorem apply_window_inv {t : List ℝ} {x : List ℂ} {wt : String} {wa : List ℝ}
    {start : ℤ} {stop : Option ℤ} {zo : Bool} {xw : List ℂ} {w : List ℝ} {a b : ℤ}
    (h : apply_window t x wt wa start stop zo = some (xw, w, a, b)) :
    a = aw_s0 start ∧ b = aw_s1 x.length start stop ∧
    ((b = a ∧ xw = x ∧ w = []) ∨
     (a < b ∧ b ≤ (x.length : ℤ) ∧
      aw_window wt wa (b - a).toNat = some w ∧
      w.length = (b - a).toNat ∧
      xw = (if zo then
              List.replicate a.toNat 0 ++ slice_prod x w a.toNat b.toNat
                ++ List.replicate (x.length - b.toNat) 0
            else x.take a.toNat ++ slice_prod x w a.toNat b.toNat ++ x.drop b.toNat))) := by
  unfold apply_window at h
  by_cases hlen0 : aw_len x.length start stop = 0
  · rw [if_pos hlen0] at h
    simp only [Option.some.injEq, Prod.mk.injEq] at h
    obtain ⟨hxw, hww, ha, hb⟩ := h
    subst ha hb
    refine ⟨rfl, rfl, Or.inl ⟨?_, hxw.symm, hww.symm⟩⟩
    have h1 := aw_s0_le_s1 x.length start stop
    unfold aw_len at hlen0
    omega
  · rw [if_neg hlen0] at h
    rcases hw : aw_window wt wa (aw_len x.length start stop) with _ | w'
    · rw [hw] at h; simp at h
    · rw [hw] at h
      simp only [Option.some.injEq, Prod.mk.injEq] at h
      obtain ⟨hxw, hww, ha, hb⟩ := h
      subst ha hb
      have hab : aw_s0 start < aw_s1 x.length start stop := by
        have h1 := aw_s0_le_s1 x.length start stop
        unfold aw_len at hlen0
        omega
      have hlen : (aw_s1 x.length start stop - aw_s0 start).toNat
          = aw_len x.length start stop := rfl
      refine ⟨rfl, rfl, Or.inr ⟨hab, aw_s1_le_len hab, ?_, ?_, ?_⟩⟩
      · rw [hlen, hw, hww]
      · rw [← hww, hlen]
        exact aw_window_length hw
      · rw [← hxw, ← hww]

/-- The windowed signal has the length of the input signal. -/
theorem apply_window_length {t : List ℝ} {x : List ℂ} {wt : String} {wa : List ℝ}
    {start : ℤ} {stop : Option ℤ} {zo : Bool} {xw : List ℂ} {w : List ℝ} {a b : ℤ}
    (h : apply_window t x wt wa start stop zo = some (xw, w, a, b)) :
    xw.length = x.length := by
  obtain ⟨ha, _, hshape⟩ := apply_window_inv h
  rcases hshape with ⟨_, hxw, _⟩ | ⟨hab, hbl, _, hwlen, hxw⟩
  · rw [hxw]
  · have h0a : 0 ≤ a := ha ▸ aw_s0_nonneg start
    have hA : a.toNat ≤ b.toNat := by omega
    have hB : b.toNat ≤ x.length := by omega
    have hsl : (slice_prod x w a.toNat b.toNat).length = b.toNat - a.toNat := by
      refine slice_prod_length hA hB ?_
      rw [hwlen]; omega
    rw [hxw]
    split <;>
      simp only [List.length_append, List.length_replicate, List.length_take,
        List.length_drop, hsl] <;>
      omega

theorem zipWith_mul_one_complex (x : List ℂ) :
    List.zipWith (fun (xi : ℂ) (wi : ℝ) => xi * (wi : ℂ)) x (List.replicate x.length 1) = x := by
  induction x with
  | nil => rfl
  | cons a l ih => simp [List.replicate_succ, ih]

/-! ### Claim C3 -/

/-- C3, as claimed, is FALSE: with the "hann" window, empty args and
full-range indices, `apply_window` with `zero_outside_window = false` does
NOT return the input unchanged: on the signal `[1, 1]` it returns `[0, 1]`
(the periodic Hann window of length 2 is `[0, 1]`). -/
theorem c3_counterexample :
    (apply_window [0, 1] [1, 1] "hann" [] 0 none false).map (fun r => r.1) = some [0, 1] ∧
    ([0, 1] : List ℂ) ≠ [1, 1] := by
  have hcos : (2 * Real.pi * ((1 : ℕ) : ℝ) / ((2 : ℕ) : ℝ)) = Real.pi := by
    push_cast; ring
  have hhann : hann_periodic 2 = [0, 1] := by
    unfold hann_periodic
    rw [if_neg (by norm_num)]
    simp [List.range_succ, hcos, Real.cos_pi]
    norm_num
  have hgw : aw_window "hann" [] 2 = some [0, 1] := by
    unfold aw_window get_window
    simp [hhann]
  have hs0 : aw_s0 0 = 0 := by unfold aw_s0; simp
  have hs1 : aw_s1 ([1, 1] : List ℂ).length 0 none = 2 := by
    unfold aw_s1
    rw [hs0]
    simp
  have hlen : aw_len ([1, 1] : List ℂ).length 0 none = 2 := by
    unfold aw_len
    rw [hs0, hs1]
    rfl
  constructor
  · unfold apply_window
    rw [hlen, if_neg (by norm_num), hgw]
    simp only [hs0, hs1, Option.map_some']
    simp [slice_prod]
  · simp

/-- C3 amended: the pass-through holds for the `"None"` window type (whose
window is all-ones): with full-range indices and
`zero_outside_window = false`, `apply_window` returns the input signal
unchanged. -/
theorem c3_amended (t : List ℝ) (x : List ℂ) :
    (apply_window t x "None" [] 0 none false).map (fun r => r.1) = some x := by
  have hs0 : aw_s0 0 = 0 := by unfold aw_s0; simp
  have hs1 : aw_s1 x.length 0 none = (x.length : ℤ) := by
    unfold aw_s1
    rw [hs0]
    simp
  have hlen : aw_len x.length 0 none = x.length := by
    unfold aw_len
    rw [hs0, hs1]
    simp
  unfold apply_window
  by_cases h0 : x.length = 0
  · rw [hlen, if_pos h0]
    rfl
  · rw [hlen, if_neg h0]
    have hw : aw_window "None" [] x.length = some (List.replicate x.length 1) := by
      unfold aw_window
      rw [if_pos rfl]
    rw [hw]
    simp only [hs0, hs1, Option.map_some', Bool.false_eq_true, if_false,
      Int.toNat_zero, Int.toNat_natCast, Option.some.injEq]
    rw [List.take_zero, List.drop_length, List.nil_append, List.append_nil]
    unfold slice_prod
    rw [List.drop_zero, Nat.sub_zero, List.take_length]
    exact zipWith_mul_one_complex x

/-! ### Claim C7 -/

/-- C7, as claimed, is FALSE: `start_idx` is NOT clamped into
`[0, len(signal)]` — only `max(0, ·)` is applied — so for an empty signal
and `start_idx = 10` the returned clamped index is `10 > 0 = len`. -/
theorem c7_counterexample :
    apply_window [] [] "None" [] 10 none true = some ([], [], 10, 10) ∧
    ¬((10 : ℤ) ≤ (([] : List ℂ).length : ℤ)) := by
  constructor
  · rfl
  · decide

/-- C7 amended: `apply_window` lower-clamps `start_idx` to `≥ 0`,
upper-clamps `stop_idx` to `≤ len(signal)` and forces it `≥ start_idx`
(so when `start_idx > len` both returned indices equal `start_idx > len`);
whenever the clamped region is empty it returns, without error, the
unmodified signal, an empty window and the clamped indices. -/
theorem c7_amended (t : List ℝ) (x : List ℂ) (wt : String) (wa : List ℝ)
    (start : ℤ) (stop : Option ℤ) (zo : Bool) :
    (∀ xw w a b, apply_window t x wt wa start stop zo = some (xw, w, a, b) →
        0 ≤ a ∧ a ≤ b ∧ (b ≤ (x.length : ℤ) ∨ ((x.length : ℤ) < a ∧ b = a)) ∧
        (a = b → xw = x ∧ w = [])) ∧
    (min (x.length : ℤ) (stop.getD (x.length : ℤ)) ≤ aw_s0 start →
      apply_window t x wt wa start stop zo = some (x, [], aw_s0 start, aw_s0 start)) := by
  constructor
  · intro xw w a b h
    obtain ⟨ha, hb, hshape⟩ := apply_window_inv h
    have h0a : 0 ≤ a := ha ▸ aw_s0_nonneg start
    have hab : a ≤ b := by
      rw [ha, hb]; exact aw_s0_le_s1 x.length start stop
    rcases hshape with ⟨hba, hxw, hww⟩ | ⟨hlt, hble, _, _, _⟩
    · refine ⟨h0a, hab, ?_, fun _ => ⟨hxw, hww⟩⟩
      by_cases hla : (x.length : ℤ) < a
      · exact Or.inr ⟨hla, hba⟩
      · exact Or.inl (by omega)
    · exact ⟨h0a, hab, Or.inl hble, fun hab2 => absurd hab2 (by omega)⟩
  · intro hmin
    have hs1 : aw_s1 x.length start stop = aw_s0 start := by
      unfold aw_s1
      split
      · rfl
      · omega
    have hlen : aw_len x.length start stop = 0 := by
      unfold aw_len
      rw [hs1]
      simp
    unfold apply_window
    rw [hlen, if_pos rfl, hs1]

/-- Witness for `c7_amended`: at the concrete input `x = []`,
`start_idx = 10`, the empty-region hypothesis holds and the theorem yields
the contract. -/
theorem c7_amended_witness :
    apply_window [] ([] : List ℂ) "None" [] 10 none true
      = some ([], [], aw_s0 10, aw_s0 10) ∧
    0 ≤ aw_s0 10 := by
  have h2 := (c7_amended [] ([] : List ℂ) "None" [] 10 none true).2 (by decide)
  have h1 := (c7_amended [] ([] : List ℂ) "None" [] 10 none true).1 [] []
    (aw_s0 10) (aw_s0 10) h2
  exact ⟨h2, h1.1⟩

/-! ### Claim C10 -/

/-- C10: at the heap level, `apply_window` never mutates the input signal
array: after any successful call the caller's array still reads back
unchanged, and the returned windowed signal lives at a freshly allocated
handle distinct from the input's. -/
theorem c10_no_mutation (st : Heap) (xh : ℕ) (wt : String) (wa : List ℝ)
    (start : ℤ) (stop : Option ℤ) (zo : Bool) (x : List ℂ)
    (hx : st.read xh = some x) (st' : Heap) (oh : ℕ) (w : List ℝ) (a b : ℤ)
    (h : apply_window_heap st xh wt wa start stop zo = some (st', oh, w, a, b)) :
    st'.read xh = some x ∧ oh ≠ xh := by
  have hlt : xh < st.length := by
    have := List.get?_eq_some.mp hx
    exact this.1
  have hne : st.length ≠ xh := by omega
  have hread : ∀ v v' : List ℂ, (((st ++ [v]).set st.length v').get? xh) = some x := by
    intro v v'
    rw [List.get?_set_ne _ _ hne, List.get?_append hlt]
    exact hx
  have hread2 : ∀ v : List ℂ, ((st ++ [v]).get? xh) = some x := by
    intro v
    rw [List.get?_append hlt]
    exact hx
  unfold apply_window_heap at h
  rw [show st.read xh = some x from hx] at h
  simp only [Heap.alloc, Heap.read, Heap.write] at h
  split at h
  · simp only [Option.some.injEq, Prod.mk.injEq] at h
    obtain ⟨hst, hoh, -⟩ := h
    subst hst hoh
    exact ⟨hread2 x, hne⟩
  · split at h
    · simp at h
    · split at h
      · simp only [Option.some.injEq, Prod.mk.injEq] at h
        obtain ⟨hst, hoh, -⟩ := h
        subst hst hoh
        exact ⟨hread _ _, hne⟩
      · simp only [Option.some.injEq, Prod.mk.injEq] at h
        obtain ⟨hst, hoh, -⟩ := h
        subst hst hoh
        exact ⟨hread _ _, hne⟩

/-- Witness for `c10_no_mutation` at a concrete one-array heap. -/
theorem c10_witness :
    (([[]] : Heap) ++ [[]]).get? 0 = some ([] : List ℂ) ∧ (1 : ℕ) ≠ 0 := by
  have h := c10_no_mutation [[]] 0 "None" [] 0 none true [] rfl
    ([[]] ++ [[]]) 1 [] 0 0 rfl
  exact h

/-! ### Claim C8 -/

/-- C8: `normalize_fft` pairs the quotient with the sample spectrum's own
frequency axis, and normalizing a spectrum against itself yields magnitude 1
at every bin of magnitude at least `1e-12` (bins below the floor are divided
by `1e-12 + 0i` instead). -/
theorem c8_normalize_self (d e : FftDict) :
    (normalize_fft d e).Freqs = d.Freqs ∧
    (∀ k z, d.FFT.get? k = some z → (1e-12 : ℝ) ≤ Complex.abs z →
      ((normalize_fft d d).FFT.get? k).map Complex.abs = some 1) := by
  refine ⟨rfl, ?_⟩
  intro k z hk hz
  obtain ⟨hlt, hg⟩ := List.get?_eq_some.mp hk
  have hget : d.FFT[k] = z := by rw [← hg]; simp [List.get_eq_getElem]
  have hzne : z ≠ 0 := by
    intro h0
    rw [h0] at hz
    simp only [map_zero] at hz
    norm_num at hz
  have hlen : k < (List.zipWith (· / ·) d.FFT
      (d.FFT.map fun zr => if Complex.abs zr < 1e-12 then ((1e-12 : ℝ) : ℂ) else zr)).length := by
    simpa using hlt
  unfold normalize_fft
  rw [List.get?_eq_getElem?, List.getElem?_eq_getElem hlen]
  simp only [Option.map_some']
  rw [List.getElem_zipWith, List.getElem_map, hget, if_neg (not_lt.mpr hz),
    div_self hzne]
  simp

/-- Witness for `c8_normalize_self` on the one-bin spectrum `[1]`. -/
theorem c8_witness :
    ((normalize_fft ⟨[], [1]⟩ ⟨[], [1]⟩).FFT.get? 0).map Complex.abs = some 1 := by
  refine (c8_normalize_self ⟨[], [1]⟩ ⟨[], [1]⟩).2 0 1 rfl ?_
  rw [map_one]
  norm_num

/-! ### Claim C9 -/

theorem np_fftfreq_length (N : ℕ) (dt : ℝ) : (np_fftfreq N dt).length = N := by
  unfold np_fftfreq
  rw [List.length_map, List.length_range]

theorem np_fft_length (y : List ℂ) : (np_fft y).length = y.length := by
  unfold np_fft
  rw [List.length_map, List.length_range]

/-- C9: `compute_fft` returns a frequency axis of length exactly
`len(signal) // 2`, a spectrum of the same length, and that spectrum is the
first `len // 2` bins of the DFT of the full-length zeroed-outside-window
signal. -/
theorem c9_half_spectrum (t : List ℝ) (x : List ℂ) (wt : String) (wa : List ℝ)
    (start : ℤ) (stop : Option ℤ) (r : FftResult)
    (h : compute_fft t x wt wa start stop = some r) :
    r.Freqs.length = x.length / 2 ∧ r.FFT.length = x.length / 2 ∧
    ∃ xw w a b, apply_window t x wt wa start stop true = some (xw, w, a, b) ∧
      r.FFT = (np_fft xw).take (x.length / 2) := by
  unfold compute_fft at h
  rcases haw : apply_window t x wt wa start stop true with _ | ⟨xw, w, a, b⟩
  · rw [haw] at h; simp at h
  · rw [haw] at h
    dsimp only at h
    have hxlen : xw.length = x.length := apply_window_length haw
    by_cases ht : t.length < 2
    · rw [if_pos ht] at h; simp at h
    · rw [if_neg ht] at h
      by_cases hxw0 : xw.length = 0
      · rw [if_pos hxw0] at h; simp at h
      · rw [if_neg hxw0] at h
        rcases hpk : t.get? (argmax_abs xw) with _ | tv
        · rw [hpk] at h; simp at h
        · rw [hpk] at h
          simp only [Option.some.injEq] at h
          subst h
          refine ⟨?_, ?_, xw, w, a, b, rfl, by rw [hxlen]⟩
          · rw [List.length_take, np_fftfreq_length, hxlen]
            omega
          · rw [List.length_take, np_fft_length, hxlen]
            omega

/-- Witness for `c9_half_spectrum` at the one-sample signal `x = [1]` with
`t = [0, 1]` (a genuine program run: the FFT of one data point succeeds and
`1 // 2 = 0` bins are returned). -/
theorem c9_witness :
    (([] : List ℝ).length = ([(1 : ℂ)] : List ℂ).length / 2) ∧
    (([] : List ℂ).length = ([(1 : ℂ)] : List ℂ).length / 2) ∧
    ∃ xw w a b,
      apply_window [0, 1] ([(1 : ℂ)] : List ℂ) "None" [] 0 none true = some (xw, w, a, b) ∧
      ([] : List ℂ) = (np_fft xw).take (([(1 : ℂ)] : List ℂ).length / 2) :=
  c9_half_spectrum [0, 1] [1] "None" [] 0 none _ rfl

/-! ### Claim C2 -/

/-- `np_argmax` really is the first index attaining the maximum. -/
theorem np_argmax_spec (l : List ℝ) (hl : l ≠ []) :
    np_argmax l < l.length ∧
    (∀ j, j < l.length → l.getD j 0 ≤ l.getD (np_argmax l) 0) ∧
    (∀ j, j < np_argmax l → l.getD j 0 < l.getD (np_argmax l) 0) := by
  induction l with
  | nil => exact absurd rfl hl
  | cons a tl ih =>
    cases tl with
    | nil =>
      have h0 : np_argmax [a] = 0 := rfl
      refine ⟨by rw [h0]; simp, ?_, ?_⟩
      · intro j hj
        simp only [List.length_cons, List.length_nil] at hj
        interval_cases j
        rw [h0]
      · intro j hj
        rw [h0] at hj
        omega
    | cons bb rest =>
      obtain ⟨ih1, ih2, ih3⟩ := ih (List.cons_ne_nil bb rest)
      have hdef : np_argmax (a :: bb :: rest)
          = if a < (bb :: rest).getD (np_argmax (bb :: rest)) 0
            then np_argmax (bb :: rest) + 1 else 0 := rfl
      by_cases hc : a < (bb :: rest).getD (np_argmax (bb :: rest)) 0
      · rw [hdef, if_pos hc]
        refine ⟨?_, ?_, ?_⟩
        · simp only [List.length_cons] at ih1 ⊢
          omega
        · intro j hj
          cases j with
          | zero =>
            rw [List.getD_cons_zero, List.getD_cons_succ]
            exact le_of_lt hc
          | succ i =>
            rw [List.getD_cons_succ, List.getD_cons_succ]
            refine ih2 i ?_
            simp only [List.length_cons] at hj ⊢
            omega
        · intro j hj
          cases j with
          | zero =>
            rw [List.getD_cons_zero, List.getD_cons_succ]
            exact hc
          | succ i =>
            rw [List.getD_cons_succ, List.getD_cons_succ]
            exact ih3 i (by omega)
      · rw [hdef, if_neg hc]
        refine ⟨Nat.succ_pos _, ?_, ?_⟩
        · intro j hj
          cases j with
          | zero => exact le_rfl
          | succ i =>
            rw [List.getD_cons_succ, List.getD_cons_zero]
            refine le_trans (ih2 i ?_) (not_lt.mp hc)
            simp only [List.length_cons] at hj ⊢
            omega
        · intro j hj
          omega

/-- C2, as claimed, is FALSE: `compute_fft` picks the peak index by the
COMPLEX MAGNITUDE `np.abs(xw)`, not by `|real part|`.  On `t = [0, 1]`,
`x = [2i, 1]` the code returns peak time `0` (index of max modulus), while
the spec's `|real part|` rule demands peak time `1`. -/
theorem c2_counterexample :
    (compute_fft [0, 1] [Complex.I * 2, 1] "None" [] 0 none).map (fun r => r.t_peak_ps)
      = some (some 0) ∧
    ((apply_window [0, 1] [Complex.I * 2, 1] "None" [] 0 none true).map fun r =>
        peak_time_spec [0, 1] r.1) = some (some 1) ∧
    (some (some (0 : ℝ)) : Option (Option ℝ)) ≠ some (some 1) := by
  have hs0 : aw_s0 0 = 0 := by unfold aw_s0; simp
  have hs1 : aw_s1 ([Complex.I * 2, 1] : List ℂ).length 0 none = 2 := by
    unfold aw_s1
    rw [hs0]
    simp
  have hlen : aw_len ([Complex.I * 2, 1] : List ℂ).length 0 none = 2 := by
    unfold aw_len
    rw [hs0, hs1]
    rfl
  have hxwv : slice_prod [Complex.I * 2, 1] [1, 1] 0 2 = [Complex.I * 2, 1] := by
    simp [slice_prod]
  have haw : apply_window [0, 1] [Complex.I * 2, 1] "None" [] 0 none true
      = some ([Complex.I * 2, 1], [1, 1], 0, 2) := by
    unfold apply_window
    rw [hlen, if_neg (by norm_num)]
    have hw : aw_window "None" [] 2 = some [1, 1] := by
      unfold aw_window
      rw [if_pos rfl]
      rfl
    rw [hw]
    simp only [hs0, hs1, if_true, Int.toNat_zero, show Int.toNat 2 = 2 from rfl]
    rw [hxwv]
    simp
  have habs : ([Complex.I * 2, (1 : ℂ)].map Complex.abs) = [2, 1] := by
    simp [map_mul, Complex.abs_I, Complex.abs_two]
  have hargmax : argmax_abs [Complex.I * 2, 1] = 0 := by
    unfold argmax_abs
    rw [habs]
    norm_num [np_argmax]
  have hre : ([Complex.I * 2, (1 : ℂ)].map fun z => |z.re|) = [0, 1] := by
    norm_num [Complex.ext_iff]
  refine ⟨?_, ?_, by simp⟩
  · unfold compute_fft
    rw [haw]
    dsimp only
    rw [hargmax]
    rfl
  · rw [haw]
    simp only [Option.map_some']
    unfold peak_time_spec
    rw [if_neg (by norm_num), hre]
    have h1 : np_argmax [0, 1] = 1 := by
      have hdef : np_argmax [(0 : ℝ), 1] = if (0 : ℝ) < [(1 : ℝ)].getD (np_argmax [(1 : ℝ)]) 0
          then np_argmax [(1 : ℝ)] + 1 else 0 := rfl
      rw [hdef]
      norm_num [show np_argmax [(1 : ℝ)] = 0 from rfl]
    rw [h1]
    rfl

/-- C2 amended: `peak_time_ps` is the time-axis value at the FIRST index at
which the complex magnitude `|xw|` of the zeroed-outside-window signal is
maximal (`np.argmax(np.abs(xw))`); on an empty windowed signal
`compute_fft` raises (`np.fft.fft` of 0 data points) rather than returning
a result, so NaN is never returned — the code's `float("nan")` branch is
dead code. -/
theorem c2_amended (t : List ℝ) (x : List ℂ) (wt : String) (wa : List ℝ)
    (start : ℤ) (stop : Option ℤ) :
    (x = [] → compute_fft t x wt wa start stop = none) ∧
    (∀ r, compute_fft t x wt wa start stop = some r →
      ∀ xw w a b, apply_window t x wt wa start stop true = some (xw, w, a, b) →
        ∃ i, i < xw.length ∧ r.t_peak_ps = some (t.getD i 0) ∧
          (∀ j, j < xw.length → Complex.abs (xw.getD j 0) ≤ Complex.abs (xw.getD i 0)) ∧
          (∀ j, j < i → Complex.abs (xw.getD j 0) < Complex.abs (xw.getD i 0))) := by
  constructor
  · intro hx
    subst hx
    have hs1 : aw_s1 ([] : List ℂ).length start stop = aw_s0 start := by
      unfold aw_s1 aw_s0
      simp only [List.length_nil, Nat.cast_zero]
      split <;> omega
    have hlen0 : aw_len ([] : List ℂ).length start stop = 0 := by
      unfold aw_len
      rw [hs1]
      simp
    have haw0 : apply_window t [] wt wa start stop true
        = some ([], [], aw_s0 start, aw_s1 ([] : List ℂ).length start stop) := by
      unfold apply_window
      rw [hlen0, if_pos rfl]
    unfold compute_fft
    rw [haw0]
    dsimp only
    by_cases ht : t.length < 2
    · rw [if_pos ht]
    · rw [if_neg ht, if_pos (show ([] : List ℂ).length = 0 from rfl)]
  · intro r h
    unfold compute_fft at h
    rcases haw : apply_window t x wt wa start stop true with _ | ⟨xw0, w0, a0, b0⟩
    · rw [haw] at h; simp at h
    · rw [haw] at h
      dsimp only at h
      by_cases ht : t.length < 2
      · rw [if_pos ht] at h; simp at h
      · rw [if_neg ht] at h
        by_cases hxw0 : xw0.length = 0
        · rw [if_pos hxw0] at h; simp at h
        · rw [if_neg hxw0] at h
          rcases hpk : t.get? (argmax_abs xw0) with _ | tv
          · rw [hpk] at h; simp at h
          · rw [hpk] at h
            simp only [Option.some.injEq] at h
            intro xw w a b haw2
            simp only [Option.some.injEq, Prod.mk.injEq] at haw2
            obtain ⟨hxw2, -, -, -⟩ := haw2
            subst hxw2
            have hmapne : xw0.map Complex.abs ≠ [] := by
              simp only [ne_eq, List.map_eq_nil]
              intro h0
              rw [h0] at hxw0
              exact hxw0 rfl
            obtain ⟨hs1, hs2, hs3⟩ := np_argmax_spec (xw0.map Complex.abs) hmapne
            rw [List.length_map] at hs1
            have hmapg : ∀ j, j < xw0.length →
                (xw0.map Complex.abs).getD j 0 = Complex.abs (xw0.getD j 0) := by
              intro j hj
              rw [List.getD_eq_getElem _ _ (by simpa using hj),
                List.getD_eq_getElem _ _ hj, List.getElem_map]
            refine ⟨np_argmax (xw0.map Complex.abs), hs1, ?_, ?_, ?_⟩
            · have hpk2 : t[argmax_abs xw0]? = some tv := by
                rw [← List.get?_eq_getElem?]
                exact hpk
              obtain ⟨hlt2, hv⟩ := List.getElem?_eq_some.mp hpk2
              rw [← h]
              simp only
              show some tv = some (t.getD (argmax_abs xw0) 0)
              rw [List.getD_eq_getElem _ _ hlt2, hv]
            · intro j hj
              have := hs2 j (by simpa using hj)
              rwa [hmapg j hj, hmapg _ hs1] at this
            · intro j hj
              have := hs3 j hj
              rwa [hmapg j (by omega), hmapg _ hs1] at this

/-- Witness for `c2_amended`: the empty-signal conjunct at `x = []` (the
program raises, modelled by `none`), and the peak characterization at the
genuine one-sample run `t = [0, 1]`, `x = [1]`. -/
theorem c2_amended_witness :
    compute_fft [0, 1] ([] : List ℂ) "None" [] 0 none = none ∧
    (∃ i, i < ([(1 : ℂ) * ((1 : ℝ) : ℂ)] : List ℂ).length ∧
      (some (0 : ℝ) : Option ℝ) = some (([0, 1] : List ℝ).getD i 0) ∧
      (∀ j, j < ([(1 : ℂ) * ((1 : ℝ) : ℂ)] : List ℂ).length →
        Complex.abs (([(1 : ℂ) * ((1 : ℝ) : ℂ)] : List ℂ).getD j 0)
          ≤ Complex.abs (([(1 : ℂ) * ((1 : ℝ) : ℂ)] : List ℂ).getD i 0)) ∧
      (∀ j, j < i →
        Complex.abs (([(1 : ℂ) * ((1 : ℝ) : ℂ)] : List ℂ).getD j 0)
          < Complex.abs (([(1 : ℂ) * ((1 : ℝ) : ℂ)] : List ℂ).getD i 0))) :=
  ⟨(c2_amended [0, 1] [] "None" [] 0 none).1 rfl,
   (c2_amended [0, 1] [1] "None" [] 0 none).2
     ⟨[], [], some 0, ⟨"None", [], 0, some 1⟩⟩ rfl
     [(1 : ℂ) * ((1 : ℝ) : ℂ)] [1] 0 1 rfl⟩

/-! ### Claims C5 and C6 -/

theorem tamr_head {datasets : List DMDataset} {d0 : DMDataset}
    (h : datasets.head? = some d0) (df : Df) :
    time_axis_matches_reference datasets df = time_axis_matches_reference [d0] df := by
  cases datasets with
  | nil => simp at h
  | cons a l =>
    simp only [List.head?_cons, Option.some.injEq] at h
    subst h
    rfl

theorem load_files_datasets_prefix (parse : String → Option Df) :
    ∀ (paths : List String) (dm : DataManager),
      ∃ l, (load_files parse dm paths).1.datasets = dm.datasets ++ l := by
  intro paths
  induction paths with
  | nil => intro dm; exact ⟨[], by simp [load_files]⟩
  | cons p rest ih =>
    intro dm
    unfold load_files
    rcases hp : parse p with _ | df
    · exact ih dm
    · dsimp only
      by_cases hm : time_axis_matches_reference dm.datasets df
      · rw [if_pos hm]
        obtain ⟨l, hl⟩ := ih { dm with datasets := dm.datasets ++ [mkDMDataset p df] }
        refine ⟨mkDMDataset p df :: l, ?_⟩
        rw [hl]
        simp
      · rw [if_neg hm]
        exact ih dm

/-- Full characterization of a `load_files` batch over a store whose first
dataset is `d0`: the skip list is exactly the parsed candidates whose time
axis mismatches `d0`'s, each with the mismatch reason, and the store gains
exactly the parsed matching candidates, in order. -/
theorem load_files_char (parse : String → Option Df) (d0 : DMDataset) :
    ∀ (paths : List String) (dm : DataManager), dm.datasets.head? = some d0 →
      (load_files parse dm paths).2
        = paths.filterMap (fun p => (parse p).bind fun df =>
            if time_axis_matches_reference [d0] df then none
            else some (p, mismatchReason)) ∧
      (load_files parse dm paths).1.datasets
        = dm.datasets ++ paths.filterMap (fun p => (parse p).bind fun df =>
            if time_axis_matches_reference [d0] df then some (mkDMDataset p df)
            else none) := by
  intro paths
  induction paths with
  | nil =>
    intro dm hdm
    constructor <;> simp [load_files]
  | cons p rest ih =>
    intro dm hdm
    unfold load_files
    rcases hp : parse p with _ | df
    · obtain ⟨ih1, ih2⟩ := ih dm hdm
      constructor
      · simp only [List.filterMap_cons, hp, Option.none_bind]
        exact ih1
      · simp only [List.filterMap_cons, hp, Option.none_bind]
        exact ih2
    · dsimp only
      by_cases hm : time_axis_matches_reference dm.datasets df
      · rw [if_pos hm]
        have hm2 : time_axis_matches_reference [d0] df = true := by
          rw [← tamr_head hdm df]
          exact hm
        have hdm2 : ({ dm with datasets := dm.datasets ++ [mkDMDataset p df] }
            : DataManager).datasets.head? = some d0 := by
          cases hds : dm.datasets with
          | nil => rw [hds] at hdm; simp at hdm
          | cons a l =>
            rw [hds] at hdm
            simpa using hdm
        obtain ⟨ih1, ih2⟩ := ih _ hdm2
        constructor
        · rw [ih1]
          simp only [List.filterMap_cons, hp, Option.some_bind, hm2, if_true]
        · rw [ih2]
          simp only [List.filterMap_cons, hp, Option.some_bind, hm2, if_true]
          simp
      · rw [if_neg hm]
        have hm2 : time_axis_matches_reference [d0] df = false := by
          rw [← tamr_head hdm df]
          simpa using hm
        obtain ⟨ih1, ih2⟩ := ih dm hdm
        constructor
        · show (p, mismatchReason) :: (load_files parse dm rest).2 = _
          rw [ih1]
          simp only [List.filterMap_cons, hp, Option.some_bind, hm2]
          simp
        · show (load_files parse dm rest).1.datasets = _
          rw [ih2]
          simp only [List.filterMap_cons, hp, Option.some_bind, hm2]
          simp

/-- C5: a parsed candidate whose time axis differs from the first loaded
trace's axis is returned in the skip list with the "Time axis mismatch"
reason and is not added to the store; matching candidates in the same batch
are appended in order; on an empty store any parsed candidate is accepted
and becomes the first dataset. -/
theorem c5_axis_mismatch (parse : String → Option Df) (dm : DataManager)
    (paths : List String) :
    (∀ d0, dm.datasets.head? = some d0 →
      (load_files parse dm paths).2
        = paths.filterMap (fun p => (parse p).bind fun df =>
            if time_axis_matches_reference [d0] df then none
            else some (p, mismatchReason)) ∧
      (load_files parse dm paths).1.datasets
        = dm.datasets ++ paths.filterMap (fun p => (parse p).bind fun df =>
            if time_axis_matches_reference [d0] df then some (mkDMDataset p df)
            else none)) ∧
    (dm.datasets = [] → ∀ p rest df, parse p = some df →
      (load_files parse dm (p :: rest)).1.datasets.head? = some (mkDMDataset p df)) ∧
    mismatchReason = "Time axis mismatch" ++ " (does not match first dataset)" := by
  refine ⟨fun d0 hd0 => load_files_char parse d0 paths dm hd0, ?_, rfl⟩
  intro hempty p rest df hp
  unfold load_files
  rw [hp]
  dsimp only
  rw [hempty]
  rw [show time_axis_matches_reference [] df = true from rfl, if_pos rfl]
  obtain ⟨l, hl⟩ := load_files_datasets_prefix parse rest
    { dm with datasets := [] ++ [mkDMDataset p df] }
  rw [hl]
  simp

/-- Witness for `c5_axis_mismatch`: the spec's scenario, trace A with
`time = [0,1,2]` loaded, then a batch containing only B with
`time = [0,1,2,3]`: B lands in the skip list with the mismatch reason and
the store still holds only A. -/
theorem c5_witness :
    (load_files (fun p => if p = "B" then some ⟨[0, 1, 2, 3], []⟩ else none)
        ⟨[mkDMDataset "A" ⟨[0, 1, 2], []⟩], none⟩ ["B"]).2
      = [("B", mismatchReason)] ∧
    (load_files (fun p => if p = "B" then some ⟨[0, 1, 2, 3], []⟩ else none)
        ⟨[mkDMDataset "A" ⟨[0, 1, 2], []⟩], none⟩ ["B"]).1.datasets
      = [mkDMDataset "A" ⟨[0, 1, 2], []⟩] := by
  obtain ⟨h1, h2⟩ := (c5_axis_mismatch (fun p => if p = "B" then some ⟨[0, 1, 2, 3], []⟩ else none)
      ⟨[mkDMDataset "A" ⟨[0, 1, 2], []⟩], none⟩ ["B"]).1 (mkDMDataset "A" ⟨[0, 1, 2], []⟩) rfl
  refine ⟨?_, ?_⟩
  · rw [h1]
    rfl
  · rw [h2]
    rfl

theorem load_files_skip_reasons (parse : String → Option Df) :
    ∀ (paths : List String) (dm : DataManager),
      ∀ e ∈ (load_files parse dm paths).2, e.2 = mismatchReason := by
  intro paths
  induction paths with
  | nil => intro dm e he; simp [load_files] at he
  | cons p rest ih =>
    intro dm e he
    unfold load_files at he
    rcases hp : parse p with _ | df
    · rw [hp] at he
      exact ih dm e he
    · rw [hp] at he
      dsimp only at he
      by_cases hm : time_axis_matches_reference dm.datasets df
      · rw [if_pos hm] at he
        exact ih _ e he
      · rw [if_neg hm] at he
        rcases List.mem_cons.mp he with heq | htail
        · rw [heq]
        · exact ih dm e htail

theorem load_files_skip_parsed (parse : String → Option Df) :
    ∀ (paths : List String) (dm : DataManager),
      ∀ e ∈ (load_files parse dm paths).2, ∃ df, parse e.1 = some df := by
  intro paths
  induction paths with
  | nil => intro dm e he; simp [load_files] at he
  | cons p rest ih =>
    intro dm e he
    unfold load_files at he
    rcases hp : parse p with _ | df
    · rw [hp] at he
      exact ih dm e he
    · rw [hp] at he
      dsimp only at he
      by_cases hm : time_axis_matches_reference dm.datasets df
      · rw [if_pos hm] at he
        exact ih _ e he
      · rw [if_neg hm] at he
        rcases List.mem_cons.mp he with heq | htail
        · rw [heq]
          exact ⟨df, hp⟩
        · exact ih dm e htail

theorem load_files_new_parsed (parse : String → Option Df) :
    ∀ (paths : List String) (dm : DataManager),
      ∀ ds ∈ (load_files parse dm paths).1.datasets,
        ds ∈ dm.datasets ∨ ∃ q df, parse q = some df ∧ ds = mkDMDataset q df := by
  intro paths
  induction paths with
  | nil => intro dm ds hds; simp [load_files] at hds; exact Or.inl hds
  | cons p rest ih =>
    intro dm ds hds
    unfold load_files at hds
    rcases hp : parse p with _ | df
    · rw [hp] at hds
      exact ih dm ds hds
    · rw [hp] at hds
      dsimp only at hds
      by_cases hm : time_axis_matches_reference dm.datasets df
      · rw [if_pos hm] at hds
        rcases ih _ ds hds with hmem | hnew
        · rcases List.mem_append.mp hmem with hin | hone
          · exact Or.inl hin
          · refine Or.inr ⟨p, df, hp, ?_⟩
            simpa using hone
        · exact Or.inr hnew
      · rw [if_neg hm] at hds
        exact ih dm ds hds

/-- C6: `load_files` never lets a parse failure escape (it is a total
function of the parse outcomes), every entry of the returned skip list
carries the axis-mismatch reason — so the skip list holds axis-mismatch
entries only — and a candidate whose parse fails contributes neither a skip
entry nor a stored dataset. -/
theorem c6_parse_failure_silent (parse : String → Option Df) (dm : DataManager)
    (paths : List String) :
    (∀ e ∈ (load_files parse dm paths).2, e.2 = mismatchReason) ∧
    (∀ p, parse p = none →
      (∀ e ∈ (load_files parse dm paths).2, e.1 ≠ p) ∧
      (∀ ds ∈ (load_files parse dm paths).1.datasets, ds.path = p → ds ∈ dm.datasets)) := by
  refine ⟨load_files_skip_reasons parse paths dm, ?_⟩
  intro p hp
  constructor
  · intro e he heq
    obtain ⟨df, hdf⟩ := load_files_skip_parsed parse paths dm e he
    rw [heq, hp] at hdf
    exact Option.noConfusion hdf
  · intro ds hds hpath
    rcases load_files_new_parsed parse paths dm ds hds with hold | ⟨q, df, hq, hds2⟩
    · exact hold
    · exfalso
      subst hds2
      have hqp : q = p := hpath
      rw [hqp, hp] at hq
      exact Option.noConfusion hq

/-- Witness for `c6_parse_failure_silent`: a batch with a failing candidate
"bad" and a parsing candidate "good" over an empty store. -/
theorem c6_witness :
    (∀ e ∈ (load_files (fun p => if p = "good" then some ⟨[0], []⟩ else none)
        ⟨[], none⟩ ["bad", "good"]).2, e.1 ≠ "bad") ∧
    (∀ ds ∈ (load_files (fun p => if p = "good" then some ⟨[0], []⟩ else none)
        ⟨[], none⟩ ["bad", "good"]).1.datasets,
      ds.path = "bad" → ds ∈ (⟨[], none⟩ : DataManager).datasets) :=
  (c6_parse_failure_silent (fun p => if p = "good" then some ⟨[0], []⟩ else none)
    ⟨[], none⟩ ["bad", "good"]).2 "bad" rfl

/-! ### Claim C4 -/

theorem mapOption_mem_rev {α β : Type} {f : α → Option β} :
    ∀ {l : List α} {l' : List β}, mapOption f l = some l' →
      ∀ b ∈ l', ∃ a ∈ l, f a = some b := by
  intro l
  induction l with
  | nil =>
    intro l' h b hb
    simp only [mapOption, Option.some.injEq] at h
    subst h
    simp at hb
  | cons a tl ih =>
    intro l' h b hb
    unfold mapOption at h
    rcases hfa : f a with _ | b0 <;> rw [hfa] at h
    · simp at h
    · rcases hmo : mapOption f tl with _ | tl' <;> rw [hmo] at h
      · simp at h
      · dsimp only at h
        simp only [Option.some.injEq] at h
        subst h
        rcases List.mem_cons.mp hb with hb0 | hbt
        · exact ⟨a, List.mem_cons_self a tl, by rw [hfa, hb0]⟩
        · obtain ⟨a2, ha2, hfa2⟩ := ih hmo b hbt
          exact ⟨a2, List.mem_cons_of_mem a ha2, hfa2⟩

theorem mapOption_mem_fwd {α β : Type} {f : α → Option β} :
    ∀ {l : List α} {l' : List β}, mapOption f l = some l' →
      ∀ a ∈ l, ∃ b ∈ l', f a = some b := by
  intro l
  induction l with
  | nil =>
    intro l' h a ha
    simp at ha
  | cons a0 tl ih =>
    intro l' h a ha
    unfold mapOption at h
    rcases hfa : f a0 with _ | b0 <;> rw [hfa] at h
    · simp at h
    · rcases hmo : mapOption f tl with _ | tl' <;> rw [hmo] at h
      · simp at h
      · dsimp only at h
        simp only [Option.some.injEq] at h
        subst h
        rcases List.mem_cons.mp ha with ha0 | hat
        · exact ⟨b0, List.mem_cons_self b0 tl', by rw [ha0, hfa]⟩
        · obtain ⟨b2, hb2, hfb2⟩ := ih hmo a hat
          exact ⟨b2, List.mem_cons_of_mem b0 hb2, hfb2⟩

/-- C4: after `on_compute_fft`, every dataset's cached phase entry is
removed (`none`), and its normalized-spectrum entry is either absent or
freshly computed from the dataset's NEW spectrum against the resolved
reference's NEW spectrum — never a stale value. -/
theorem c4_cache_invalidation (datasets : List FPDataset)
    (referencePath : Option String) (wt : String) (wa : List ℝ) (start : ℤ)
    (stop : Option ℤ) (out : List FPDataset)
    (h : on_compute_fft datasets referencePath wt wa start stop = some out) :
    ∀ ds ∈ out, ds.results.phase = none ∧
      (ds.results.fft_normalized = none ∨
        ∃ spec refSpec, ds.results.fft = some spec ∧
          ds.results.fft_normalized
            = some (normalize_fft spec.toDict refSpec.toDict) ∧
          ∃ rd ∈ out, referencePath = some rd.path ∧
            rd.results.fft = some refSpec) := by
  intro ds hds
  unfold on_compute_fft at h
  rcases hu : mapOption (fun d =>
      (compute_fft d.time d.signal wt wa start stop).map fun spec =>
        { d with results := ⟨some spec, none, none⟩ }) datasets with _ | updated
  · rw [hu] at h
    exact absurd h (by simp)
  · rw [hu] at h
    dsimp only at h
    have hupd : ∀ u ∈ updated, ∃ spec, u.results = ⟨some spec, none, none⟩ := by
      intro u hu2
      obtain ⟨d, _, hfd⟩ := mapOption_mem_rev hu u hu2
      rcases hc : compute_fft d.time d.signal wt wa start stop with _ | spec
      · rw [hc] at hfd
        simp at hfd
      · rw [hc] at hfd
        simp only [Option.map_some', Option.some.injEq] at hfd
        exact ⟨spec, by rw [← hfd]⟩
    rcases hr : (referencePath.bind fun rp => if rp = "" then none
        else updated.find? fun d => d.path = rp) with _ | refDs
    · rw [hr] at h
      simp only [Option.some.injEq] at h
      subst h
      obtain ⟨spec, hres⟩ := hupd ds hds
      rw [hres]
      exact ⟨rfl, Or.inl rfl⟩
    · rw [hr] at h
      dsimp only at h
      rcases hrf : refDs.results.fft with _ | refFft
      · rw [hrf] at h
        simp only [Option.some.injEq] at h
        subst h
        obtain ⟨spec, hres⟩ := hupd ds hds
        rw [hres]
        exact ⟨rfl, Or.inl rfl⟩
      · rw [hrf] at h
        obtain ⟨u, hu2, hgu⟩ := mapOption_mem_rev h ds hds
        obtain ⟨spec, hres⟩ := hupd u hu2
        rcases hcf : u.results.fft with _ | spec2
        · rw [hcf] at hgu
          simp at hgu
        · rw [hcf] at hgu
          simp only [Option.map_some', Option.some.injEq] at hgu
          have hspec2 : spec2 = spec := by
            rw [hres] at hcf
            simpa using hcf.symm
          subst hspec2
          subst hgu
          refine ⟨by rw [hres], Or.inr ⟨spec2, refFft, by rw [hres], rfl, ?_⟩⟩
          obtain ⟨rp, hrp, hif⟩ := Option.bind_eq_some.mp hr
          by_cases hrpe : rp = ""
          · rw [if_pos hrpe] at hif
            exact absurd hif (by simp)
          · rw [if_neg hrpe] at hif
            have hmem : refDs ∈ updated := List.mem_of_find?_eq_some hif
            have hpath : refDs.path = rp := by
              have := List.find?_some hif
              exact of_decide_eq_true this
            obtain ⟨rd, hrd, hgrd⟩ := mapOption_mem_fwd h refDs hmem
            rcases hcf2 : refDs.results.fft with _ | refFft2
            · rw [hcf2] at hrf
              exact Option.noConfusion hrf
            · rw [hcf2] at hgrd
              have hff2 : refFft2 = refFft := by
                rw [hcf2] at hrf
                simpa using hrf
              subst hff2
              simp only [Option.map_some', Option.some.injEq] at hgrd
              have hpath2 : rd.path = refDs.path := by rw [← hgrd]
              have hfft2 : rd.results.fft = some refFft2 := by
                rw [← hgrd]
              exact ⟨rd, hrd, by rw [hrp, hpath2, hpath], hfft2⟩

/-- Witness for `c4_cache_invalidation`: one trace with signal `[1]` and a
stale cached phase and normalized spectrum; after the spectrum
recomputation (a genuine program run) both are gone. -/
theorem c4_witness :
    ((⟨"A", [0, 1], [(1 : ℂ)],
        ⟨some ⟨[], [], some 0, ⟨"None", [], 0, some 1⟩⟩, none, none⟩⟩ : FPDataset)
        : FPDataset).results.phase = none ∧
    (((⟨"A", [0, 1], [(1 : ℂ)],
        ⟨some ⟨[], [], some 0, ⟨"None", [], 0, some 1⟩⟩, none, none⟩⟩ : FPDataset)
        : FPDataset).results.fft_normalized = none ∨
      ∃ spec refSpec,
        ((⟨"A", [0, 1], [(1 : ℂ)],
          ⟨some ⟨[], [], some 0, ⟨"None", [], 0, some 1⟩⟩, none, none⟩⟩ : FPDataset)
          : FPDataset).results.fft = some spec ∧
        ((⟨"A", [0, 1], [(1 : ℂ)],
          ⟨some ⟨[], [], some 0, ⟨"None", [], 0, some 1⟩⟩, none, none⟩⟩ : FPDataset)
          : FPDataset).results.fft_normalized
          = some (normalize_fft spec.toDict refSpec.toDict) ∧
        ∃ rd ∈ [(⟨"A", [0, 1], [(1 : ℂ)],
            ⟨some ⟨[], [], some 0, ⟨"None", [], 0, some 1⟩⟩, none, none⟩⟩ : FPDataset)],
          (none : Option String) = some rd.path ∧ rd.results.fft = some refSpec) :=
  c4_cache_invalidation
    [⟨"A", [0, 1], [(1 : ℂ)], ⟨none, some [1], some ⟨[], []⟩⟩⟩] none "None" [] 0 none
    [⟨"A", [0, 1], [(1 : ℂ)],
      ⟨some ⟨[], [], some 0, ⟨"None", [], 0, some 1⟩⟩, none, none⟩⟩]
    rfl
    ⟨"A", [0, 1], [(1 : ℂ)],
      ⟨some ⟨[], [], some 0, ⟨"None", [], 0, some 1⟩⟩, none, none⟩⟩
    (List.mem_singleton.mpr rfl)

/-! ### Claim C1 -/

theorem c1_prod (f : ℝ) (m : ℤ) (hm : (m : ℝ) = -4 * f) :
    Complex.exp (-Complex.I * ((2 * Real.pi * f * 2 : ℝ) : ℂ))
      * Complex.exp (-((2 * Real.pi * f * (2 - 0) : ℝ) : ℂ) * Complex.I) = 1 := by
  rw [← Complex.exp_add]
  have hmc : ((m : ℤ) : ℂ) = -4 * (f : ℂ) := by exact_mod_cast hm
  have h2 : -Complex.I * ((2 * Real.pi * f * 2 : ℝ) : ℂ)
      + -((2 * Real.pi * f * (2 - 0) : ℝ) : ℂ) * Complex.I
      = (m : ℂ) * (2 * (Real.pi : ℂ) * Complex.I) := by
    rw [hmc]
    push_cast
    ring
  rw [h2]
  exact Complex.exp_int_mul_two_pi_mul_I m

theorem c1_abs_one (r : ℝ) : Complex.abs (Complex.exp (-Complex.I * (r : ℂ))) = 1 := by
  rw [Complex.abs_exp]
  have hre : (-Complex.I * (r : ℂ)).re = 0 := by simp
  rw [hre, Real.exp_zero]

theorem c1_phired : phi_red_of c1T (phi0_diff_of c1Freqs 2 0) = [0, 0, 0, 0, 0, 0] := by
  simp only [phi_red_of, phi0_diff_of, c1T, c1Freqs, List.map_cons, List.map_nil,
    List.zipWith_cons_cons, List.zipWith_nil_right]
  rw [c1_prod 0 0 (by norm_num), c1_prod 1 (-4) (by norm_num),
    c1_prod 2 (-8) (by norm_num), c1_prod 3 (-12) (by norm_num),
    c1_prod 4 (-16) (by norm_num), c1_prod 5 (-20) (by norm_num)]
  simp [Complex.arg_one]

theorem c1_unwrap_zeros :
    np_unwrap [(0 : ℝ), 0, 0, 0, 0, 0] = [(0 : ℝ), 0, 0, 0, 0, 0] := by
  have hstep : ∀ corr : ℝ, corr = 0 → ∀ l : List ℝ, (∀ v ∈ l, v = (0 : ℝ)) →
      np_unwrap_aux 0 corr l = l := by
    intro corr hcorr l
    induction l with
    | nil => intro _; rfl
    | cons q rest ih =>
      intro hl
      have hq : q = 0 := hl q (List.mem_cons_self q rest)
      subst hq hcorr
      unfold np_unwrap_aux
      dsimp only
      rw [if_pos (by simpa using Real.pi_pos)]
      norm_num
      exact ih (fun v hv => hl v (List.mem_cons_of_mem _ hv))
  show (0 : ℝ) :: np_unwrap_aux 0 0 [0, 0, 0, 0, 0] = [(0 : ℝ), 0, 0, 0, 0, 0]
  rw [hstep 0 rfl [0, 0, 0, 0, 0] (fun v hv => by simpa using hv)]

theorem c1_mag : c1T.map Complex.abs = [1, 1, 1, 1, 1, 1] := by
  simp only [c1T, c1Freqs, List.map_cons, List.map_nil]
  simp only [c1_abs_one]

theorem c1_mask :
    default_fit_mask c1Freqs c1T 0.2 = [false, true, true, true, true, true] := by
  unfold default_fit_mask
  dsimp only
  rw [c1_mag]
  rw [show np_max [(1 : ℝ), 1, 1, 1, 1, 1] = 1 from by simp [np_max]]
  simp only [c1Freqs, List.zipWith_cons_cons, List.zipWith_nil_right]
  norm_num

theorem c1_rint_zero : np_rint ((0 : ℝ) / (2 * Real.pi)) = 0 := by
  rw [zero_div]
  unfold np_rint
  rw [Int.fract_zero]
  rw [if_neg (by norm_num)]
  exact round_zero

/-- C1: the code's informed unwrap at the spec's pure-delay scenario.
With `freqs_THz = [0..5]`, `t0_sample_ps = 2`, `t0_reference_ps = 0` and
`T = exp(-i·2π·f·2)`, `unwrap_phase_informed` returns
`unwrapped_phase = +2π·f·2` at every bin (`[0, 4π, ..., 20π]`) and
`fit_intercept_B = 0`; the spec requires `-2π·f·2`, and at `f = 1` the two
differ (`4π ≠ -4π`), exhibiting the sign error in the reconstruction. -/
theorem c1_informed_unwrap_eval :
    (unwrap_phase_informed c1Freqs c1T 2 0 none 0.2).unwrappedPhase
      = [0, 4 * Real.pi, 8 * Real.pi, 12 * Real.pi, 16 * Real.pi, 20 * Real.pi] ∧
    (unwrap_phase_informed c1Freqs c1T 2 0 none 0.2).fit_intercept_B = 0 ∧
    (4 * Real.pi : ℝ) ≠ -(2 * Real.pi * 1 * 2) := by
  have hcount : ([false, true, true, true, true, true].count true) = 5 := rfl
  unfold unwrap_phase_informed
  dsimp only
  rw [c1_phired, c1_unwrap_zeros, c1_mask, hcount]
  rw [if_neg (by norm_num)]
  rw [c1_rint_zero]
  refine ⟨?_, rfl, ?_⟩
  · simp only [phi0_diff_of, c1Freqs, List.map_cons, List.map_nil, Int.cast_zero,
      mul_zero, sub_zero, List.zipWith_cons_cons, List.zipWith_nil_right]
    norm_num
    ring_nf
    norm_num [mul_comm]
  · intro heq
    nlinarith [Real.pi_pos]

end THzTDS
